import Mathlib

/-!
Shallow embedding of `src/week1/workout_analyzer/workout_analyzer.py`.

Modelling conventions:
* Python `float` values (weights, RPE, volumes, averages) are modelled as `ℚ`
  (exact arithmetic); Python `int` as `ℤ`.
* Python `str` comparison is lexicographic on code points; we embed it as a
  boolean comparison on `String.data` (`strLt` / `strLe`), which is kernel
  executable, unlike core `String.lt`.
* Python `dict` (insertion ordered, last-write-wins on a key) is modelled as an
  association list with in-place update (`alGet` / `alUpsert`).
* The Python builtins sorted and list.sort are stable sorts; `List.insertionSort r`
  with `r` the (non-strict) key comparison has exactly the stable-sort
  behaviour (an element is inserted before the first element it is `r`-below,
  hence before later equal keys).
* Exceptions are explicit: `load_data` returns the final state paired with
  `Option String`, `some msg` being an uncaught exception propagating to the
  caller (the Python code catches only `FileNotFoundError` and
  `json.JSONDecodeError`).
-/

namespace Workout

/-! ### Lexicographic string comparison (Python `<` / `<=` on `str`) -/

/-- Strict lexicographic order on char lists, by code point, shorter prefix
first — the comparison Python uses on `str`. -/
def strLtL : List Char → List Char → Bool
  | _, [] => false
  | [], _ :: _ => true
  | a :: as, b :: bs => if a = b then strLtL as bs else decide (a < b)

/-- Python `a < b` on strings. -/
def strLt (a b : String) : Bool := strLtL a.data b.data

/-- Python `a <= b` on strings (equivalently, not `b < a`). -/
def strLe (a b : String) : Bool := !(strLt b a)

theorem strLtL_irrefl (l : List Char) : strLtL l l = false := by
  induction l with
  | nil => rfl
  | cons a as ih => simp [strLtL, ih]

theorem strLtL_asymm (a b : List Char) (h : strLtL a b = true) :
    strLtL b a = false := by
  induction a generalizing b with
  | nil =>
    cases b with
    | nil => simp [strLtL] at h
    | cons y ys => rfl
  | cons x xs ih =>
    cases b with
    | nil => simp [strLtL] at h
    | cons y ys =>
      by_cases hxy : x = y
      · subst hxy
        simp only [strLtL, if_pos rfl] at h ⊢
        exact ih ys h
      · simp only [strLtL, if_neg hxy] at h
        have hlt : x < y := of_decide_eq_true h
        have hne : y ≠ x := ne_of_gt hlt
        simp [strLtL, if_neg hne, not_lt_of_gt hlt]

theorem strLtL_trans (a b c : List Char) (hab : strLtL a b = true)
    (hbc : strLtL b c = true) : strLtL a c = true := by
  induction a generalizing b c with
  | nil =>
    cases b with
    | nil => simp [strLtL] at hab
    | cons y ys =>
      cases c with
      | nil => simp [strLtL] at hbc
      | cons z zs => rfl
  | cons x xs ih =>
    cases b with
    | nil => simp [strLtL] at hab
    | cons y ys =>
      cases c with
      | nil => simp [strLtL] at hbc
      | cons z zs =>
        by_cases hxy : x = y
        · subst hxy
          simp only [strLtL, if_pos rfl] at hab
          by_cases hyz : x = z
          · subst hyz
            simp only [strLtL, if_pos rfl] at hbc ⊢
            exact ih ys zs hab hbc
          · simp only [strLtL, if_neg hyz] at hbc ⊢
            exact hbc
        · simp only [strLtL, if_neg hxy] at hab
          have hlt : x < y := of_decide_eq_true hab
          by_cases hyz : y = z
          · subst hyz
            have hne : x ≠ y := hxy
            simp [strLtL, if_neg hne, hlt]
          · simp only [strLtL, if_neg hyz] at hbc
            have hlt2 : y < z := of_decide_eq_true hbc
            have hxz : x < z := lt_trans hlt hlt2
            simp [strLtL, if_neg (ne_of_lt hxz), hxz]

theorem strLtL_eq_of_not_lt (a b : List Char) (h1 : strLtL a b = false)
    (h2 : strLtL b a = false) : a = b := by
  induction a generalizing b with
  | nil =>
    cases b with
    | nil => rfl
    | cons y ys => simp [strLtL] at h1
  | cons x xs ih =>
    cases b with
    | nil => simp [strLtL] at h2
    | cons y ys =>
      by_cases hxy : x = y
      · subst hxy
        simp only [strLtL, if_pos rfl] at h1 h2
        rw [ih ys h1 h2]
      · exfalso
        simp only [strLtL, if_neg hxy] at h1
        have hne : y ≠ x := fun h => hxy h.symm
        simp only [strLtL, if_neg hne] at h2
        have hnlt1 : ¬ x < y := of_decide_eq_false h1
        have hnlt2 : ¬ y < x := of_decide_eq_false h2
        exact hxy (le_antisymm (not_lt.mp hnlt2) (not_lt.mp hnlt1))

theorem strLe_refl (a : String) : strLe a a = true := by
  simp [strLe, strLt, strLtL_irrefl]

theorem strLe_total (a b : String) : strLe a b = true ∨ strLe b a = true := by
  by_cases h : strLt b a = true
  · right
    simp [strLe, strLt, strLtL_asymm _ _ h]
  · left
    simp [strLe]
    exact eq_false_of_ne_true h

theorem strLe_trans (a b c : String) (hab : strLe a b = true)
    (hbc : strLe b c = true) : strLe a c = true := by
  simp only [strLe, strLt, Bool.not_eq_true'] at *
  by_contra hca'
  have hca : strLtL c.data a.data = true := by
    cases h : strLtL c.data a.data with
    | false => exact absurd h hca'
    | true => rfl
  by_cases hbc2 : strLtL b.data c.data = true
  · have : strLtL b.data a.data = true := strLtL_trans _ _ _ hbc2 hca
    rw [this] at hab
    exact Bool.false_ne_true hab.symm
  · have heq : b.data = c.data :=
      strLtL_eq_of_not_lt _ _ (eq_false_of_ne_true hbc2) hbc
    rw [← heq] at hca
    rw [hca] at hab
    exact Bool.false_ne_true hab.symm

/-! ### Data model (`WorkoutSet`, `WorkoutSession`, the analyzer state) -/

/-- Dataclass WorkoutSet — a single set in a workout. -/
structure WorkoutSet where
  exercise : String
  reps : Int
  weight : Rat
  rpe : Rat
  date : String
  notes : String
deriving DecidableEq

/-- Dataclass WorkoutSession — a complete workout session. -/
structure WorkoutSession where
  date : String
  exercise : String
  sets : List WorkoutSet
  total_volume : Rat
  duration_minutes : Int
deriving DecidableEq

/-- State of a WorkoutPerformanceAnalyzer: its self.workouts
list (the `data_file` path plays no further role after loading). -/
structure WorkoutPerformanceAnalyzer where
  workouts : List WorkoutSession
deriving DecidableEq

/-- Method calculate_total_volume: the sum of s.reps * s.weight over sets. -/
def calculate_total_volume (sets : List WorkoutSet) : Rat :=
  (sets.map (fun s => (s.reps : Rat) * s.weight)).sum

/-- Python `max(iterable, default=d)`: `d` on the empty list, otherwise the
left fold of binary `max` over the elements. -/
def pyMax (l : List Rat) (d : Rat) : Rat :=
  match l with
  | [] => d
  | a :: as => as.foldl max a

/-- Maximum set weight of a session, default 0 — used by three queries. -/
def sessionMaxWeight (w : WorkoutSession) : Rat :=
  pyMax (w.sets.map (fun s => s.weight)) 0

/-! ### Python `dict` as an insertion-ordered association list -/

/-- Dict lookup — first (unique) binding of the key. -/
def alGet {α : Type} (l : List (String × α)) (k : String) : Option α :=
  match l with
  | [] => none
  | (k1, v1) :: rest => if k1 = k then some v1 else alGet rest k

/-- Dict assignment — update in place if the key is bound, else append
(Python dicts preserve insertion order). -/
def alUpsert {α : Type} (l : List (String × α)) (k : String) (v : α) :
    List (String × α) :=
  match l with
  | [] => [(k, v)]
  | (k1, v1) :: rest =>
    if k1 = k then (k1, v) :: rest else (k1, v1) :: alUpsert rest k v

/-! ### Ingestion: `load_data` and `add_workout` -/

/-- A raw JSON set object: each required field may be absent. -/
structure RawSet where
  exercise : Option String
  reps : Option Int
  weight : Option Rat
  rpe : Option Rat
  date : Option String
  notes : Option String
deriving DecidableEq

/-- A raw JSON session object; the code reads the sets key with a get
defaulting to the empty list, making an absent sets key indistinguishable
from an empty one, so it is a plain list here. -/
structure RawSession where
  date : Option String
  exercise : Option String
  duration_minutes : Option Int
  sets : List RawSet
deriving DecidableEq

/-- Python subscript access on a dict: raises KeyError when absent. -/
def req {α : Type} (field : String) (v : Option α) : Except String α :=
  match v with
  | some x => Except.ok x
  | none => Except.error ("KeyError: " ++ field)

/-- Building one WorkoutSet from a raw record, in the field order the
constructor call evaluates its arguments. -/
def parseSet (s : RawSet) : Except String WorkoutSet := do
  let ex ← req "exercise" s.exercise
  let r ← req "reps" s.reps
  let w ← req "weight" s.weight
  let rp ← req "rpe" s.rpe
  let d ← req "date" s.date
  Except.ok ⟨ex, r, w, rp, d, s.notes.getD ""⟩

/-- Building one `WorkoutSession` from a raw record: the `sets` comprehension
runs first (failing at its first bad set), then the date and exercise
subscripts; total_volume is assigned from calculate_total_volume right
after construction. -/
def parseSession (raw : RawSession) : Except String WorkoutSession := do
  let sets ← raw.sets.mapM parseSet
  let d ← req "date" raw.date
  let ex ← req "exercise" raw.exercise
  Except.ok ⟨d, ex, sets, calculate_total_volume sets, raw.duration_minutes.getD 0⟩

/-- Session loop of load_data over the parsed sessions list: each
parsed session is appended to `self.workouts` in place; the first `KeyError`
propagates (it is caught nowhere), leaving the appends made so far. -/
def loadSessions (st : WorkoutPerformanceAnalyzer) (doc : List RawSession) :
    WorkoutPerformanceAnalyzer × Option String :=
  match doc with
  | [] => (st, none)
  | raw :: rest =>
    match parseSession raw with
    | Except.ok w => loadSessions ⟨st.workouts ++ [w]⟩ rest
    | Except.error e => (st, some e)

/-- What open plus json.load can yield: a missing file, unparseable JSON,
or a parsed document (its sessions list, defaulting to empty). -/
inductive Source where
  | missing
  | malformed
  | parsed (sessions : List RawSession)
deriving DecidableEq

/-- Method load_data: FileNotFoundError and json.JSONDecodeError are caught
(console notice only, state untouched); a parsed document runs the session
loop, whose `KeyError`s are not caught. -/
def load_data (st : WorkoutPerformanceAnalyzer) (src : Source) :
    WorkoutPerformanceAnalyzer × Option String :=
  match src with
  | Source.missing => (st, none)
  | Source.malformed => (st, none)
  | Source.parsed sessions => loadSessions st sessions

/-- Method add_workout: recompute total_volume from the sets, then append. -/
def add_workout (st : WorkoutPerformanceAnalyzer) (w : WorkoutSession) :
    WorkoutPerformanceAnalyzer :=
  ⟨st.workouts ++ [{ w with total_volume := calculate_total_volume w.sets }]⟩

/-- The mutating operations available over the analyzer lifetime. -/
inductive Op where
  | load (src : Source)
  | add (w : WorkoutSession)
deriving DecidableEq

/-- One mutating call (queries do not change state — see the frame theorem). -/
def runOp (st : WorkoutPerformanceAnalyzer) (op : Op) :
    WorkoutPerformanceAnalyzer :=
  match op with
  | Op.load src => (load_data st src).1
  | Op.add w => add_workout st w

/-- A whole history of mutating calls, from a freshly constructed analyzer. -/
def runOps (st : WorkoutPerformanceAnalyzer) (ops : List Op) :
    WorkoutPerformanceAnalyzer :=
  ops.foldl runOp st

/-! ### Queries -/

/-- Python truthiness of the optional `exercise: str = None` argument:
`None` and `""` are falsy. -/
def truthy (e : Option String) : Bool :=
  match e with
  | none => false
  | some s => decide (s ≠ "")

/-- The `continue` condition `exercise and workout.exercise != exercise`. -/
def prSkip (exercise : Option String) (w : WorkoutSession) : Bool :=
  match exercise with
  | none => false
  | some e => decide (e ≠ "") && decide (w.exercise ≠ e)

/-- One iteration of the PR loop:
`prs[w.exercise] = max(prs.get(w.exercise, 0), max(weights, default=0))`. -/
def prStep (prs : List (String × Rat)) (w : WorkoutSession) :
    List (String × Rat) :=
  alUpsert prs w.exercise (max ((alGet prs w.exercise).getD 0) (sessionMaxWeight w))

/-- Method get_personal_records: fold over the workouts; with a truthy filter
the result is collapsed to `{exercise: prs.get(exercise, 0)}`. -/
def get_personal_records (st : WorkoutPerformanceAnalyzer)
    (exercise : Option String) : List (String × Rat) :=
  let prs := st.workouts.foldl
    (fun prs w => if prSkip exercise w then prs else prStep prs w) []
  if truthy exercise then
    [(exercise.getD "", (alGet prs (exercise.getD "")).getD 0)]
  else prs

/-- Session comparison used when calculate_progression sorts by date. -/
def dateLe (a b : WorkoutSession) : Prop := strLe a.date b.date = true

/-- Session comparison used when get_recent_workouts sorts by date reversed. -/
def dateGe (a b : WorkoutSession) : Prop := strLe b.date a.date = true

instance : DecidableRel dateLe :=
  fun a b => inferInstanceAs (Decidable (strLe a.date b.date = true))

instance : DecidableRel dateGe :=
  fun a b => inferInstanceAs (Decidable (strLe b.date a.date = true))

instance : IsTotal WorkoutSession dateLe :=
  ⟨fun a b => strLe_total a.date b.date⟩

instance : IsTrans WorkoutSession dateLe :=
  ⟨fun a b c => strLe_trans a.date b.date c.date⟩

instance : IsTotal WorkoutSession dateGe :=
  ⟨fun a b => strLe_total b.date a.date⟩

instance : IsTrans WorkoutSession dateGe :=
  ⟨fun a b c hab hbc => strLe_trans c.date b.date a.date hbc hab⟩

/-- The result shape of `calculate_progression`: either the error dict
carrying only the message (so no volume_progression key) or the full
progression dict. Each series point is a `(date, value)` pair. -/
inductive ProgressionResult where
  | error (msg : String)
  | ok (exercise : String) (total_sessions : Nat) (range_start range_end : String)
      (volume_progression : List (String × Rat))
      (max_weight_progression : List (String × Rat))
deriving DecidableEq

/-- Method calculate_progression: filter to the exercise, error if empty, else sort
the filtered copy by date (stable, lexicographic) and emit one point per
session in sorted order. `window_days` is accepted and never used. -/
def calculate_progression (st : WorkoutPerformanceAnalyzer) (exercise : String)
    (window_days : Int) : ProgressionResult :=
  match st.workouts.filter (fun w => w.exercise == exercise) with
  | [] => ProgressionResult.error ("No data for " ++ exercise)
  | w :: ws =>
    let sorted := List.insertionSort dateLe (w :: ws)
    ProgressionResult.ok exercise sorted.length (sorted.headD w).date
      (sorted.getLastD w).date
      (sorted.map (fun u => (u.date, u.total_volume)))
      (sorted.map (fun u => (u.date, sessionMaxWeight u)))

/-- Method get_volume_by_exercise: per exercise, sum the cached total_volume. -/
def get_volume_by_exercise (st : WorkoutPerformanceAnalyzer) :
    List (String × Rat) :=
  st.workouts.foldl
    (fun vols w =>
      alUpsert vols w.exercise ((alGet vols w.exercise).getD 0 + w.total_volume))
    []

/-- The result shape of `get_session_summary`. -/
inductive SummaryResult where
  | error (msg : String)
  | ok (date exercise : String) (total_volume : Rat) (sets_count : Nat)
      (max_weight : Rat) (avg_reps : Rat) (duration_minutes : Int)
deriving DecidableEq

/-- Method get_session_summary: first session (collection order) with that date,
else an error dict; `avg_reps` guards the empty-sets division. -/
def get_session_summary (st : WorkoutPerformanceAnalyzer) (date : String) :
    SummaryResult :=
  match st.workouts.find? (fun w => w.date == date) with
  | none => SummaryResult.error ("No workout found on " ++ date)
  | some s =>
    SummaryResult.ok s.date s.exercise s.total_volume s.sets.length
      (pyMax (s.sets.map (fun x => x.weight)) 0)
      (if s.sets.isEmpty then 0
       else ((s.sets.map (fun x => x.reps)).sum : Rat) / (s.sets.length : Rat))
      s.duration_minutes

/-- Method get_recent_workouts: sort by date descending, take the first days.
`asdict` only re-shapes a session into nested plain dicts, so each returned
record is the full session with its nested sets. -/
def get_recent_workouts (st : WorkoutPerformanceAnalyzer) (days : Nat) :
    List WorkoutSession :=
  (List.insertionSort dateGe st.workouts).take days

/-- The result shape of `generate_report`. -/
inductive ReportResult where
  | error (msg : String)
  | ok (total_sessions : Nat) (exercises_tracked : List String)
      (personal_records : List (String × Rat))
      (total_volume_by_exercise : List (String × Rat))
      (total_volume_overall : Rat) (range_start range_end : String)
      (recent_workouts : List WorkoutSession)
deriving DecidableEq

/-- Python `min(iterable)` over `first :: rest` of strings. -/
def pyMinStr (first : String) (rest : List String) : String :=
  rest.foldl (fun m x => if strLt x m then x else m) first

/-- Python `max(iterable)` over `first :: rest` of strings. -/
def pyMaxStr (first : String) (rest : List String) : String :=
  rest.foldl (fun m x => if strLt m x then x else m) first

/-- Method generate_report: error dict on an empty collection, else the composed
report. -/
def generate_report (st : WorkoutPerformanceAnalyzer) : ReportResult :=
  match st.workouts with
  | [] => ReportResult.error "No workout data available"
  | w :: ws =>
    let prs := get_personal_records st none
    let volumes := get_volume_by_exercise st
    ReportResult.ok st.workouts.length (prs.map Prod.fst) prs volumes
      ((volumes.map Prod.snd).sum)
      (pyMinStr w.date (ws.map (fun u => u.date)))
      (pyMaxStr w.date (ws.map (fun u => u.date)))
      (get_recent_workouts st 5)

/-! ### Stateful views of the queries

Each query method reads `self.workouts` and never assigns to it: the sorting
inside `calculate_progression` happens on the list-comprehension copy
`exercise_workouts`, and `get_recent_workouts` uses the copying builtin
`sorted`. The stateful view of a method returns its result together with the
analyzer state after the call. -/

def get_personal_recordsS (st : WorkoutPerformanceAnalyzer)
    (exercise : Option String) : List (String × Rat) × WorkoutPerformanceAnalyzer :=
  (get_personal_records st exercise, st)

def calculate_progressionS (st : WorkoutPerformanceAnalyzer) (exercise : String)
    (window_days : Int) : ProgressionResult × WorkoutPerformanceAnalyzer :=
  (calculate_progression st exercise window_days, st)

def get_volume_by_exerciseS (st : WorkoutPerformanceAnalyzer) :
    List (String × Rat) × WorkoutPerformanceAnalyzer :=
  (get_volume_by_exercise st, st)

def get_session_summaryS (st : WorkoutPerformanceAnalyzer) (date : String) :
    SummaryResult × WorkoutPerformanceAnalyzer :=
  (get_session_summary st date, st)

def get_recent_workoutsS (st : WorkoutPerformanceAnalyzer) (days : Nat) :
    List WorkoutSession × WorkoutPerformanceAnalyzer :=
  (get_recent_workouts st days, st)

def generate_reportS (st : WorkoutPerformanceAnalyzer) :
    ReportResult × WorkoutPerformanceAnalyzer :=
  (generate_report st, st)

/-! ### Concrete fixtures (used by the witness theorems) -/

def exSet1 : WorkoutSet := ⟨"Bench", 5, 100, 8, "2026-02-01", ""⟩

def exSet2 : WorkoutSet := ⟨"Bench", 3, 120, 9, "2026-02-01", ""⟩

def exSession : WorkoutSession := ⟨"2026-02-01", "Bench", [exSet1, exSet2], 0, 45⟩

def exAnalyzer : WorkoutPerformanceAnalyzer := add_workout ⟨[]⟩ exSession

def sq01 : WorkoutSession :=
  ⟨"2026-01-01", "Squat", [⟨"Squat", 5, 100, 8, "2026-01-01", ""⟩], 500, 30⟩

def sq05 : WorkoutSession :=
  ⟨"2026-01-05", "Squat", [⟨"Squat", 5, 110, 8, "2026-01-05", ""⟩], 550, 30⟩

def sq03 : WorkoutSession :=
  ⟨"2026-01-03", "Squat", [⟨"Squat", 5, 105, 8, "2026-01-03", ""⟩], 525, 30⟩

/-- Three squat sessions, deliberately out of date order in the collection. -/
def ex3 : WorkoutPerformanceAnalyzer := ⟨[sq01, sq05, sq03]⟩

def rawBadSet : RawSet :=
  ⟨some "Squat", none, some 100, some 8, some "2026-01-01", none⟩

def rawGoodSet : RawSet :=
  ⟨some "Bench", some 5, some 80, some 7, some "2026-01-02", none⟩

def rawBadSession : RawSession :=
  ⟨some "2026-01-01", some "Squat", some 60, [rawBadSet]⟩

def rawGoodSession : RawSession :=
  ⟨some "2026-01-02", some "Bench", some 45, [rawGoodSet]⟩

/-- A document whose first session has a set lacking `reps`, followed by a
fully well-formed session. -/
def badDoc : List RawSession := [rawBadSession, rawGoodSession]

/-! ### Supporting lemmas for the ingestion invariant -/

theorem parseSession_total_volume (raw : RawSession) (w : WorkoutSession)
    (h : parseSession raw = Except.ok w) :
    w.total_volume = calculate_total_volume w.sets := by
  unfold parseSession at h
  cases hm : raw.sets.mapM parseSet with
  | error e => rw [hm] at h; simp [Bind.bind, Except.bind] at h
  | ok sets =>
    rw [hm] at h
    cases hd : raw.date with
    | none => rw [hd] at h; simp [Bind.bind, Except.bind, req] at h
    | some d =>
      rw [hd] at h
      cases he : raw.exercise with
      | none => rw [he] at h; simp [Bind.bind, Except.bind, req] at h
      | some ex =>
        rw [he] at h
        simp only [Bind.bind, Except.bind, req, Except.ok.injEq] at h
        rw [← h]

theorem loadSessions_mem (doc : List RawSession)
    (st : WorkoutPerformanceAnalyzer) (w : WorkoutSession)
    (hw : w ∈ (loadSessions st doc).1.workouts) :
    w ∈ st.workouts ∨ ∃ raw, parseSession raw = Except.ok w := by
  induction doc generalizing st with
  | nil => exact Or.inl hw
  | cons raw rest ih =>
    cases hp : parseSession raw with
    | ok w2 =>
      simp only [loadSessions, hp] at hw
      rcases ih ⟨st.workouts ++ [w2]⟩ hw with h | h
      · rcases List.mem_append.mp h with h | h
        · exact Or.inl h
        · exact Or.inr ⟨raw, by rw [hp, List.mem_singleton.mp h]⟩
      · exact Or.inr h
    | error e =>
      simp only [loadSessions, hp] at hw
      exact Or.inl hw

theorem runOps_invariant (ops : List Op) (st : WorkoutPerformanceAnalyzer)
    (hst : ∀ w ∈ st.workouts, w.total_volume = calculate_total_volume w.sets) :
    ∀ w ∈ (runOps st ops).workouts,
      w.total_volume = calculate_total_volume w.sets := by
  induction ops generalizing st with
  | nil => exact hst
  | cons op rest ih =>
    refine ih (runOp st op) ?_
    intro w hw
    cases op with
    | load src =>
      cases src with
      | missing => exact hst w hw
      | malformed => exact hst w hw
      | parsed sessions =>
        rcases loadSessions_mem sessions st w hw with h | ⟨raw, hraw⟩
        · exact hst w h
        · exact parseSession_total_volume raw w hraw
    | add w2 =>
      simp only [runOp, add_workout] at hw
      rcases List.mem_append.mp hw with h | h
      · exact hst w h
      · rw [List.mem_singleton.mp h]

/-! ### The claims -/

/-- C1: `calculate_total_volume` returns 0 on the empty list, and on any
non-empty list it adds the head value reps × weight to the total of the rest —
i.e. it is the sum of `reps × weight` over the entries; it is also additive
over concatenation. -/
theorem claim_C1 :
    calculate_total_volume [] = 0 ∧
    (∀ (s : WorkoutSet) (rest : List WorkoutSet),
      calculate_total_volume (s :: rest) =
        (s.reps : Rat) * s.weight + calculate_total_volume rest) ∧
    (∀ l1 l2 : List WorkoutSet,
      calculate_total_volume (l1 ++ l2) =
        calculate_total_volume l1 + calculate_total_volume l2) := by
  refine ⟨rfl, ?_, ?_⟩
  · intro s rest
    simp [calculate_total_volume]
  · intro l1 l2
    simp [calculate_total_volume, List.sum_append]

/-- C2: after any history of `load_data` and `add_workout` calls starting
from a fresh analyzer, every session in the collection has
`total_volume = calculate_total_volume sets` — both ingestion paths recompute
it at creation, and nothing mutates sessions afterwards. -/
theorem claim_C2 (ops : List Op) (w : WorkoutSession)
    (hw : w ∈ (runOps ⟨[]⟩ ops).workouts) :
    w.total_volume = calculate_total_volume w.sets :=
  runOps_invariant ops ⟨[]⟩ (by intro w hw; cases hw) w hw

theorem claim_C2_witness :
    (⟨"2026-01-01", "Row", [], 0, 0⟩ : WorkoutSession) ∈
      (runOps ⟨[]⟩ [Op.add ⟨"2026-01-01", "Row", [], 5, 0⟩]).workouts ∧
    (⟨"2026-01-01", "Row", [], 0, 0⟩ : WorkoutSession).total_volume =
      calculate_total_volume (⟨"2026-01-01", "Row", [], 0, 0⟩ : WorkoutSession).sets :=
  ⟨by decide, claim_C2 [Op.add ⟨"2026-01-01", "Row", [], 5, 0⟩] _ (by decide)⟩

/-- C3 counterexample: on a document whose first session holds a set lacking
`reps`, followed by a perfectly well-formed session, `load_data` propagates a
`KeyError` to the caller and ingests nothing — it does not "fail only for
that item": the well-formed second record (which does parse) is dropped, and
an exception escapes, unlike the handled source-not-found / malformed-source
conditions. -/
theorem claim_C3_counterexample :
    (load_data ⟨[]⟩ (Source.parsed badDoc)).2 = some "KeyError: reps" ∧
    (load_data ⟨[]⟩ (Source.parsed badDoc)).1.workouts = [] ∧
    (∃ w, parseSession rawGoodSession = Except.ok w) := by
  refine ⟨by decide, by decide, ?_⟩
  exact ⟨⟨"2026-01-02", "Bench", [⟨"Bench", 5, 80, 7, "2026-01-02", ""⟩],
    calculate_total_volume [⟨"Bench", 5, 80, 7, "2026-01-02", ""⟩], 45⟩, rfl⟩

/-- C3 (amended): a record missing a required field makes `load_data` raise
an uncaught `KeyError` to the caller, aborting ingestion at that record: the
sessions parsed before it remain appended (the analyzer stays usable with
them), and the failing and all later records — well-formed or not — are not
ingested. Only when every record parses does ingestion finish exception-free,
appending all sessions in source order. -/
theorem claim_C3 (doc : List RawSession) (st : WorkoutPerformanceAnalyzer) :
    (∀ e, (loadSessions st doc).2 = some e →
      ∃ pre bad post parsedPre,
        doc = pre ++ bad :: post ∧
        pre.mapM parseSession = Except.ok parsedPre ∧
        parseSession bad = Except.error e ∧
        (loadSessions st doc).1.workouts = st.workouts ++ parsedPre) ∧
    ((loadSessions st doc).2 = none →
      ∃ parsed, doc.mapM parseSession = Except.ok parsed ∧
        (loadSessions st doc).1.workouts = st.workouts ++ parsed) := by
  induction doc generalizing st with
  | nil =>
    constructor
    · intro e he
      simp [loadSessions] at he
    · intro _
      exact ⟨[], rfl, by simp [loadSessions]⟩
  | cons raw rest ih =>
    cases hp : parseSession raw with
    | error e0 =>
      constructor
      · intro e he
        simp only [loadSessions, hp] at he ⊢
        refine ⟨[], raw, rest, [], by simp, by rfl, ?_, by simp⟩
        rw [hp]
        cases he
        rfl
      · intro he
        simp only [loadSessions, hp] at he
        cases he
    | ok w =>
      constructor
      · intro e he
        simp only [loadSessions, hp] at he ⊢
        rcases (ih ⟨st.workouts ++ [w]⟩).1 e he with
          ⟨pre, bad, post, parsedPre, hdoc, hpre, hbad, hst⟩
        refine ⟨raw :: pre, bad, post, w :: parsedPre, by rw [hdoc]; rfl, ?_, hbad, ?_⟩
        · rw [List.mapM_cons, hp, hpre]
          rfl
        · rw [hst]
          simp
      · intro he
        simp only [loadSessions, hp] at he ⊢
        rcases (ih ⟨st.workouts ++ [w]⟩).2 he with ⟨parsed, hparsed, hst⟩
        refine ⟨w :: parsed, ?_, ?_⟩
        · rw [List.mapM_cons, hp, hparsed]
          rfl
        · rw [hst]
          simp

theorem claim_C3_witness :
    (loadSessions ⟨[]⟩ badDoc).2 = some "KeyError: reps" ∧
    (∃ pre bad post parsedPre,
      badDoc = pre ++ bad :: post ∧
      pre.mapM parseSession = Except.ok parsedPre ∧
      parseSession bad = Except.error "KeyError: reps" ∧
      (loadSessions ⟨[]⟩ badDoc).1.workouts =
        (⟨[]⟩ : WorkoutPerformanceAnalyzer).workouts ++ parsedPre) :=
  ⟨by decide, (claim_C3 badDoc ⟨[]⟩).1 "KeyError: reps" (by decide)⟩


/-! ### Association-list and max-fold lemmas (for C4) -/

theorem alGet_upsert_self {α : Type} (l : List (String × α)) (k : String)
    (v : α) : alGet (alUpsert l k v) k = some v := by
  induction l with
  | nil => simp [alUpsert, alGet]
  | cons p rest ih =>
    obtain ⟨k1, v1⟩ := p
    by_cases h : k1 = k
    · simp [alUpsert, alGet, h]
    · simp [alUpsert, alGet, h, ih]

theorem alGet_upsert_other {α : Type} (l : List (String × α)) (k k2 : String)
    (v : α) (h : k ≠ k2) : alGet (alUpsert l k v) k2 = alGet l k2 := by
  induction l with
  | nil => simp [alUpsert, alGet, h]
  | cons p rest ih =>
    obtain ⟨k1, v1⟩ := p
    by_cases h1 : k1 = k
    · subst h1
      simp [alUpsert, alGet, h]
    · simp [alUpsert, alGet, h1, ih]

theorem alGet_isSome_iff {α : Type} (l : List (String × α)) (k : String) :
    (alGet l k).isSome = true ↔ k ∈ l.map Prod.fst := by
  induction l with
  | nil => simp [alGet]
  | cons p rest ih =>
    obtain ⟨k1, v1⟩ := p
    by_cases h : k1 = k
    · simp [alGet, h]
    · simp [alGet, h, ih, Ne.symm h]

theorem keys_alUpsert {α : Type} (l : List (String × α)) (k : String) (v : α) :
    (alUpsert l k v).map Prod.fst =
      if k ∈ l.map Prod.fst then l.map Prod.fst else l.map Prod.fst ++ [k] := by
  induction l with
  | nil => simp [alUpsert]
  | cons p rest ih =>
    obtain ⟨k1, v1⟩ := p
    by_cases h : k1 = k
    · simp [alUpsert, h]
    · simp only [alUpsert, if_neg h, List.map_cons, ih]
      by_cases hm : k ∈ rest.map Prod.fst
      · simp [hm, Ne.symm h]
      · simp [hm, Ne.symm h]

theorem keys_alUpsert_nodup {α : Type} (l : List (String × α)) (k : String)
    (v : α) (h : (l.map Prod.fst).Nodup) :
    ((alUpsert l k v).map Prod.fst).Nodup := by
  rw [keys_alUpsert]
  by_cases hm : k ∈ l.map Prod.fst
  · simpa [hm] using h
  · simp only [if_neg hm, List.nodup_append]
    exact ⟨h, List.nodup_singleton k, by simpa using hm⟩

theorem foldl_max_mem (l : List Rat) (a : Rat) : l.foldl max a ∈ a :: l := by
  induction l generalizing a with
  | nil => simp
  | cons b rest ih =>
    rw [List.foldl_cons]
    rcases List.mem_cons.mp (ih (max a b)) with h2 | h2
    · rw [h2]
      rcases max_choice a b with hm | hm
      · rw [hm]
        exact List.mem_cons_self a _
      · rw [hm]
        exact List.mem_cons_of_mem a (List.mem_cons_self b rest)
    · exact List.mem_cons_of_mem a (List.mem_cons_of_mem b h2)

theorem le_foldl_max (l : List Rat) (a : Rat) : a ≤ l.foldl max a := by
  induction l generalizing a with
  | nil => simp
  | cons b rest ih =>
    exact le_trans (le_max_left a b) (ih (max a b))

theorem foldl_max_le_of_mem (l : List Rat) (a x : Rat) (hx : x ∈ l) :
    x ≤ l.foldl max a := by
  induction l generalizing a with
  | nil => cases hx
  | cons b rest ih =>
    rw [List.foldl_cons]
    rcases List.mem_cons.mp hx with h | h
    · rw [h]
      exact le_trans (le_max_right a b) (le_foldl_max rest (max a b))
    · exact ih (max a b) h

theorem weight_le_sessionMaxWeight (w : WorkoutSession) (s : WorkoutSet)
    (hs : s ∈ w.sets) : s.weight ≤ sessionMaxWeight w := by
  have hmem : s.weight ∈ w.sets.map (fun s => s.weight) :=
    List.mem_map_of_mem _ hs
  unfold sessionMaxWeight pyMax
  cases hw : w.sets.map (fun s => s.weight) with
  | nil => rw [hw] at hmem; cases hmem
  | cons a rest =>
    rw [hw] at hmem
    rcases List.mem_cons.mp hmem with h | h
    · rw [h]
      exact le_foldl_max rest a
    · exact foldl_max_le_of_mem rest a _ h

theorem sessionMaxWeight_mem_or_zero (w : WorkoutSession) :
    sessionMaxWeight w = 0 ∨
      sessionMaxWeight w ∈ w.sets.map (fun s => s.weight) := by
  unfold sessionMaxWeight pyMax
  cases hw : w.sets.map (fun s => s.weight) with
  | nil => exact Or.inl rfl
  | cons a rest =>
    right
    exact foldl_max_mem rest a

/-! ### The personal-records fold (for C4) -/

/-- All set weights recorded under the sessions of one exercise name. -/
def exerciseWeights (st : WorkoutPerformanceAnalyzer) (e : String) :
    List Rat :=
  (st.workouts.filter (fun w => w.exercise == e)).flatMap
    (fun w => w.sets.map (fun s => s.weight))

theorem get_personal_records_none (st : WorkoutPerformanceAnalyzer) :
    get_personal_records st none = st.workouts.foldl prStep [] := by
  simp [get_personal_records, truthy, prSkip]

theorem prFold_alGet (ws : List WorkoutSession) (prs : List (String × Rat))
    (e : String) :
    alGet (ws.foldl prStep prs) e =
      if ws.any (fun w => w.exercise == e) then
        some (((ws.filter (fun w => w.exercise == e)).map
          sessionMaxWeight).foldl max ((alGet prs e).getD 0))
      else alGet prs e := by
  induction ws generalizing prs with
  | nil => simp
  | cons w ws ih =>
    rw [List.foldl_cons, ih (prStep prs w)]
    by_cases hwe : w.exercise = e
    · have hself : alGet (prStep prs w) e =
          some (max ((alGet prs e).getD 0) (sessionMaxWeight w)) := by
        rw [prStep, ← hwe]
        exact alGet_upsert_self prs w.exercise _
      by_cases hany : ws.any (fun w => w.exercise == e) = true
      · simp [hany, hwe, hself, List.filter_cons]
      · simp [hany, hwe, hself, List.filter_cons,
          List.filter_eq_nil_iff.mpr]
        rw [List.filter_eq_nil_iff.mpr]
        · rfl
        · intro u hu
          simp only [List.any_eq_true, not_exists, not_and] at hany
          simpa using hany u hu
    · have hother : alGet (prStep prs w) e = alGet prs e := by
        rw [prStep]
        exact alGet_upsert_other prs w.exercise e _ hwe
      simp [hwe, hother, List.filter_cons]

theorem prFold_keys_nodup (ws : List WorkoutSession)
    (prs : List (String × Rat)) (h : (prs.map Prod.fst).Nodup) :
    (((ws.foldl prStep prs)).map Prod.fst).Nodup := by
  induction ws generalizing prs with
  | nil => exact h
  | cons w ws ih =>
    exact ih (prStep prs w) (keys_alUpsert_nodup _ _ _ h)

/-- C4: with no filter, `get_personal_records` has exactly one entry per
distinct exercise name appearing in the collection; each entry value is an
upper bound of every set weight recorded under that exercise and is either 0
or one of those weights — so for an exercise with at least one recorded set
weight (weights being non-negative, as the data model specifies) it is the
true maximum of those weights, and 0 when its sessions carry no sets. -/
theorem claim_C4 (st : WorkoutPerformanceAnalyzer)
    (hpos : ∀ w ∈ st.workouts, ∀ s ∈ w.sets, 0 ≤ s.weight) :
    ((get_personal_records st none).map Prod.fst).Nodup ∧
    (∀ e, (alGet (get_personal_records st none) e).isSome = true ↔
      e ∈ st.workouts.map (fun w => w.exercise)) ∧
    (∀ e v, alGet (get_personal_records st none) e = some v →
      (∀ x ∈ exerciseWeights st e, x ≤ v) ∧
      v ∈ 0 :: exerciseWeights st e ∧
      (exerciseWeights st e ≠ [] → v ∈ exerciseWeights st e)) := by
  rw [get_personal_records_none]
  refine ⟨prFold_keys_nodup st.workouts [] (by simp), ?_, ?_⟩
  · intro e
    rw [prFold_alGet]
    by_cases hany : st.workouts.any (fun w => w.exercise == e) = true
    · simp only [hany, if_pos, Option.isSome_some, true_iff]
      rcases List.any_eq_true.mp hany with ⟨w, hw, hwe⟩
      exact List.mem_map.mpr ⟨w, hw, by simpa using hwe⟩
    · rw [if_neg hany]
      simp only [alGet, Option.isSome_none, Bool.false_eq_true, false_iff]
      intro hmem
      rcases List.mem_map.mp hmem with ⟨w, hw, hwe⟩
      exact hany (List.any_eq_true.mpr ⟨w, hw, by simp [hwe]⟩)
  · intro e v hv
    rw [prFold_alGet] at hv
    by_cases hany : st.workouts.any (fun w => w.exercise == e) = true
    · rw [if_pos hany] at hv
      have hv' : v = ((st.workouts.filter (fun w => w.exercise == e)).map
          sessionMaxWeight).foldl max 0 := by
        have := Option.some.inj hv
        simpa [alGet] using this.symm
      subst hv'
      set fl := st.workouts.filter (fun w => w.exercise == e) with hfl
      have hub : ∀ x ∈ exerciseWeights st e,
          x ≤ (fl.map sessionMaxWeight).foldl max 0 := by
        intro x hx
        rcases List.mem_flatMap.mp hx with ⟨w, hw, hxw⟩
        rcases List.mem_map.mp hxw with ⟨s, hs, hsx⟩
        have h1 : s.weight ≤ sessionMaxWeight w :=
          weight_le_sessionMaxWeight w s hs
        have h2 : sessionMaxWeight w ≤ (fl.map sessionMaxWeight).foldl max 0 :=
          foldl_max_le_of_mem _ _ _ (List.mem_map_of_mem sessionMaxWeight hw)
        rw [← hsx]
        exact le_trans h1 h2
      have hmem0 : (fl.map sessionMaxWeight).foldl max 0 ∈
          0 :: exerciseWeights st e := by
        rcases List.mem_cons.mp (foldl_max_mem (fl.map sessionMaxWeight) 0) with
          h | h
        · simp [h]
        · rcases List.mem_map.mp h with ⟨w, hw, hwm⟩
          rcases sessionMaxWeight_mem_or_zero w with h0 | hmem
          · simp [← hwm, h0]
          · right
            rw [← hwm]
            exact List.mem_flatMap.mpr ⟨w, hw, hmem⟩
      refine ⟨hub, hmem0, ?_⟩
      intro hne
      rcases List.mem_cons.mp hmem0 with h0 | h
      · cases hx : exerciseWeights st e with
        | nil => exact absurd hx hne
        | cons x rest =>
          have hxmem : x ∈ exerciseWeights st e := by rw [hx]; exact List.mem_cons_self x rest
          have hxw : ∃ w ∈ st.workouts, ∃ s ∈ w.sets, s.weight = x := by
            rcases List.mem_flatMap.mp hxmem with ⟨w, hw, hxw⟩
            rcases List.mem_map.mp hxw with ⟨s, hs, hsx⟩
            exact ⟨w, List.mem_of_mem_filter hw, s, hs, hsx⟩
          rcases hxw with ⟨w, hw, s, hs, hsx⟩
          have hx0 : 0 ≤ x := hsx ▸ hpos w hw s hs
          have hxle : x ≤ (fl.map sessionMaxWeight).foldl max 0 := hub x hxmem
          rw [h0] at hxle
          have hx00 : x = (0 : Rat) := le_antisymm hxle hx0
          rw [h0, ← hx00]
          exact List.mem_cons_self x rest
      · exact h
    · rw [if_neg hany] at hv
      exfalso
      have : (alGet ([] : List (String × Rat)) e).isSome = true := by
        rw [hv]; rfl
      simp [alGet] at this

theorem claim_C4_witness :
    (∀ w ∈ ex3.workouts, ∀ s ∈ w.sets, 0 ≤ s.weight) ∧
    (((get_personal_records ex3 none).map Prod.fst).Nodup ∧
    (∀ e, (alGet (get_personal_records ex3 none) e).isSome = true ↔
      e ∈ ex3.workouts.map (fun w => w.exercise)) ∧
    (∀ e v, alGet (get_personal_records ex3 none) e = some v →
      (∀ x ∈ exerciseWeights ex3 e, x ≤ v) ∧
      v ∈ 0 :: exerciseWeights ex3 e ∧
      (exerciseWeights ex3 e ≠ [] → v ∈ exerciseWeights ex3 e))) :=
  ⟨by decide, claim_C4 ex3 (by decide)⟩



/-! ### Sorted-list head/last lemmas (for C5) -/

theorem headD_mem {α : Type} (l : List α) (d : α) (h : l ≠ []) :
    l.headD d ∈ l := by
  cases l with
  | nil => exact absurd rfl h
  | cons a rest => exact List.mem_cons_self a rest

theorem getLastD_cons_mem {α : Type} (l : List α) :
    ∀ b a : α, (b :: l).getLastD a ∈ b :: l := by
  induction l with
  | nil =>
    intro b a
    simp
  | cons c rest ih =>
    intro b a
    rw [List.getLastD_cons]
    exact List.mem_cons_of_mem b (ih c b)

theorem pairwise_headD_min (l : List WorkoutSession)
    (hl : List.Pairwise dateLe l) (d : WorkoutSession) :
    ∀ x ∈ l, strLe ((l.headD d)).date x.date = true := by
  cases l with
  | nil => intro x hx; cases hx
  | cons a rest =>
    intro x hx
    rw [List.headD_cons]
    rcases List.mem_cons.mp hx with h | h
    · rw [h]
      exact strLe_refl a.date
    · exact (List.pairwise_cons.mp hl).1 x h

theorem pairwise_getLastD_max (l : List WorkoutSession)
    (hl : List.Pairwise dateLe l) :
    ∀ (d : WorkoutSession), ∀ x ∈ l, strLe x.date ((l.getLastD d)).date = true := by
  induction l with
  | nil => intro d x hx; cases hx
  | cons a rest ih =>
    intro d x hx
    rw [List.getLastD_cons]
    rcases List.mem_cons.mp hx with h | h
    · rw [h]
      cases rest with
      | nil => exact strLe_refl a.date
      | cons b rest2 =>
        have hmem := getLastD_cons_mem rest2 b a
        exact (List.pairwise_cons.mp hl).1 _ hmem
    · exact ih (List.pairwise_cons.mp hl).2 a x h

/-- C5: `calculate_progression` returns the error dict (which has no
`volume_progression` field — it is the `error` constructor) exactly when the
exercise has no sessions; otherwise its payload describes a date-sorted
(lexicographically, stable) permutation of the sessions of that exercise: the
session count, the first/last date of the sorted run (a lower/upper bound of
all selected dates), and the two parallel `(date, volume)` /
`(date, max set weight)` series with one point per session in sorted order. -/
theorem claim_C5 (st : WorkoutPerformanceAnalyzer) (e : String) (wd : Int) :
    (calculate_progression st e wd = ProgressionResult.error ("No data for " ++ e) ↔
      st.workouts.filter (fun w => w.exercise == e) = []) ∧
    (∀ ex n ds de vp mp,
      calculate_progression st e wd = ProgressionResult.ok ex n ds de vp mp →
      ex = e ∧
      ∃ sorted : List WorkoutSession,
        sorted.Perm (st.workouts.filter (fun w => w.exercise == e)) ∧
        List.Pairwise dateLe sorted ∧
        sorted ≠ [] ∧
        n = sorted.length ∧
        (∀ u ∈ sorted, strLe ds u.date = true) ∧
        (∀ u ∈ sorted, strLe u.date de = true) ∧
        ds ∈ sorted.map (fun u => u.date) ∧
        de ∈ sorted.map (fun u => u.date) ∧
        vp = sorted.map (fun u => (u.date, u.total_volume)) ∧
        mp = sorted.map (fun u => (u.date, sessionMaxWeight u))) := by
  cases hf : st.workouts.filter (fun w => w.exercise == e) with
  | nil =>
    constructor
    · rw [calculate_progression.eq_def, hf]
      simp
    · intro ex n ds de vp mp h
      rw [calculate_progression.eq_def, hf] at h
      cases h
  | cons w ws =>
    constructor
    · rw [calculate_progression.eq_def, hf]
      simp
    · intro ex n ds de vp mp h
      rw [calculate_progression.eq_def, hf] at h
      simp only [ProgressionResult.ok.injEq] at h
      obtain ⟨hex, hn, hds, hde, hvp, hmp⟩ := h
      refine ⟨hex.symm, List.insertionSort dateLe (w :: ws), ?_, ?_, ?_, ?_, ?_, ?_, ?_, ?_, ?_, ?_⟩
      · exact List.perm_insertionSort dateLe (w :: ws)
      · exact List.sorted_insertionSort dateLe (w :: ws)
      · intro hnil
        have hlen := (List.perm_insertionSort dateLe (w :: ws)).length_eq
        rw [hnil] at hlen
        simp at hlen
      · exact hn.symm
      · intro u hu
        rw [← hds]
        exact pairwise_headD_min _ (List.sorted_insertionSort dateLe (w :: ws)) w u hu
      · intro u hu
        rw [← hde]
        exact pairwise_getLastD_max _ (List.sorted_insertionSort dateLe (w :: ws)) w u hu
      · rw [← hds]
        refine List.mem_map_of_mem (fun u => u.date) (headD_mem _ w ?_)
        intro hnil
        have hlen := (List.perm_insertionSort dateLe (w :: ws)).length_eq
        rw [hnil] at hlen
        simp at hlen
      · rw [← hde]
        cases hs : List.insertionSort dateLe (w :: ws) with
        | nil =>
          have hlen := (List.perm_insertionSort dateLe (w :: ws)).length_eq
          rw [hs] at hlen
          simp at hlen
        | cons b rest =>
          exact List.mem_map_of_mem (fun u => u.date) (getLastD_cons_mem rest b w)
      · exact hvp.symm
      · exact hmp.symm


theorem claim_C5_witness :
    calculate_progression ex3 "Squat" 30 =
      ProgressionResult.ok "Squat" 3 "2026-01-01" "2026-01-05"
        [("2026-01-01", (500 : Rat)), ("2026-01-03", 525), ("2026-01-05", 550)]
        [("2026-01-01", (100 : Rat)), ("2026-01-03", 105), ("2026-01-05", 110)] ∧
    ("Squat" = "Squat" ∧
      ∃ sorted : List WorkoutSession,
        sorted.Perm (ex3.workouts.filter (fun w => w.exercise == "Squat")) ∧
        List.Pairwise dateLe sorted ∧
        sorted ≠ [] ∧
        (3 : Nat) = sorted.length ∧
        (∀ u ∈ sorted, strLe "2026-01-01" u.date = true) ∧
        (∀ u ∈ sorted, strLe u.date "2026-01-05" = true) ∧
        "2026-01-01" ∈ sorted.map (fun u => u.date) ∧
        "2026-01-05" ∈ sorted.map (fun u => u.date) ∧
        [("2026-01-01", (500 : Rat)), ("2026-01-03", 525), ("2026-01-05", 550)] =
          sorted.map (fun u => (u.date, u.total_volume)) ∧
        [("2026-01-01", (100 : Rat)), ("2026-01-03", 105), ("2026-01-05", 110)] =
          sorted.map (fun u => (u.date, sessionMaxWeight u))) :=
  ⟨by decide,
    (claim_C5 ex3 "Squat" 30).2 "Squat" 3 "2026-01-01" "2026-01-05"
      [("2026-01-01", (500 : Rat)), ("2026-01-03", 525), ("2026-01-05", 550)]
      [("2026-01-01", (100 : Rat)), ("2026-01-03", 105), ("2026-01-05", 110)]
      (by decide)⟩

/-- C6: the `window_days` parameter of `calculate_progression` is accepted
but never used — any two window sizes give identical results. -/
theorem claim_C6 (st : WorkoutPerformanceAnalyzer) (e : String) (w1 w2 : Int) :
    calculate_progression st e w1 = calculate_progression st e w2 := rfl

theorem sessionMaxWeight_mem (w : WorkoutSession) (h : w.sets ≠ []) :
    sessionMaxWeight w ∈ w.sets.map (fun s => s.weight) := by
  unfold sessionMaxWeight pyMax
  cases hw : w.sets.map (fun s => s.weight) with
  | nil => exact absurd (List.map_eq_nil_iff.mp hw) h
  | cons a rest => exact foldl_max_mem rest a

/-! ### `find?` decomposition (for C7) -/

theorem find?_decomp {α : Type} (p : α → Bool) (l : List α) (a : α)
    (h : l.find? p = some a) :
    ∃ pre post, l = pre ++ a :: post ∧ (∀ x ∈ pre, p x = false) ∧
      p a = true := by
  induction l with
  | nil => simp [List.find?] at h
  | cons b rest ih =>
    cases hb : p b with
    | true =>
      rw [List.find?_cons_of_pos rest hb] at h
      have hba := Option.some.inj h
      subst hba
      exact ⟨[], rest, rfl, ⟨fun x hx => absurd hx (List.not_mem_nil x), hb⟩⟩
    | false =>
      rw [List.find?_cons_of_neg rest (by simp [hb])] at h
      rcases ih h with ⟨pre, post, hl, hpre, hpa⟩
      refine ⟨b :: pre, post, by rw [hl]; rfl, ?_, hpa⟩
      intro x hx
      rcases List.mem_cons.mp hx with h1 | h1
      · rw [h1]
        exact hb
      · exact hpre x h1

/-- C7: `get_session_summary` returns the error dict exactly when no session
has the given date; otherwise it describes the first matching session in
collection order — its date, exercise, cached total volume, set count, max
set weight (0 when there are no sets), guarded average reps (0 when there
are no sets, else `avg × count = total reps`), and duration. In particular,
for an ingested session with sets (reps 5 × weight 100) and
(reps 3 × weight 120) it yields total_volume 860, max_weight 120,
avg_reps 4 and sets_count 2. -/
theorem claim_C7 (st : WorkoutPerformanceAnalyzer) (d : String) :
    (get_session_summary st d = SummaryResult.error ("No workout found on " ++ d) ↔
      ∀ w ∈ st.workouts, w.date ≠ d) ∧
    (∀ dd ex tv n mw ar dur,
      get_session_summary st d = SummaryResult.ok dd ex tv n mw ar dur →
      ∃ pre s2 post, st.workouts = pre ++ s2 :: post ∧
        (∀ w ∈ pre, w.date ≠ d) ∧ s2.date = d ∧
        dd = s2.date ∧ ex = s2.exercise ∧ tv = s2.total_volume ∧
        n = s2.sets.length ∧
        (s2.sets = [] → mw = 0 ∧ ar = 0) ∧
        (s2.sets ≠ [] →
          mw ∈ s2.sets.map (fun x => x.weight) ∧
          (∀ x ∈ s2.sets, x.weight ≤ mw) ∧
          ar * (s2.sets.length : Rat) = ((s2.sets.map (fun x => x.reps)).sum : Rat)) ∧
        dur = s2.duration_minutes) ∧
    get_session_summary exAnalyzer "2026-02-01" =
      SummaryResult.ok "2026-02-01" "Bench" 860 2 120 4 45 := by
  refine ⟨?_, ?_, ?_⟩
  · cases hf : st.workouts.find? (fun w => w.date == d) with
    | none =>
      rw [get_session_summary.eq_def, hf]
      constructor
      · intro _ w hw
        have := List.find?_eq_none.mp hf w hw
        simpa using this
      · intro _
        rfl
    | some s2 =>
      rw [get_session_summary.eq_def, hf]
      constructor
      · intro h
        simp at h
      · intro hall
        exfalso
        have hs2 := List.find?_some hf
        have hmem := List.mem_of_find?_eq_some hf
        exact hall s2 hmem (by simpa using hs2)
  · intro dd ex tv n mw ar dur h
    cases hf : st.workouts.find? (fun w => w.date == d) with
    | none =>
      rw [get_session_summary.eq_def, hf] at h
      cases h
    | some s2 =>
      rw [get_session_summary.eq_def, hf] at h
      simp only [SummaryResult.ok.injEq] at h
      obtain ⟨hdd, hex, htv, hn, hmw, har, hdur⟩ := h
      rcases find?_decomp _ _ _ hf with ⟨pre, post, hl, hpre, hps⟩
      refine ⟨pre, s2, post, hl, ?_, by simpa using hps, hdd.symm, hex.symm,
        htv.symm, hn.symm, ?_, ?_, hdur.symm⟩
      · intro w hw
        have := hpre w hw
        simpa using this
      · intro hsets
        constructor
        · rw [← hmw, hsets]
          rfl
        · rw [← har, hsets]
          rfl
      · intro hsets
        refine ⟨?_, ?_, ?_⟩
        · rw [← hmw]
          exact sessionMaxWeight_mem s2 hsets
        · intro x hx
          rw [← hmw]
          exact weight_le_sessionMaxWeight s2 x hx
        · have hie : s2.sets.isEmpty = false := by
            cases hs : s2.sets with
            | nil => exact absurd hs hsets
            | cons a l => rfl
          rw [← har, hie]
          simp only [Bool.false_eq_true, if_false]
          refine div_mul_cancel₀ _ ?_
          have hlen : s2.sets.length ≠ 0 :=
            fun h0 => hsets (List.length_eq_zero.mp h0)
          exact_mod_cast Nat.cast_ne_zero.mpr hlen
  · norm_num [get_session_summary, exAnalyzer, add_workout, exSession,
      calculate_total_volume, exSet1, exSet2, pyMax, List.find?]

theorem claim_C7_witness :
    get_session_summary exAnalyzer "2026-02-01" =
      SummaryResult.ok "2026-02-01" "Bench" 860 2 120 4 45 :=
  (claim_C7 exAnalyzer "2026-02-01").2.2


/-- C8: `get_recent_workouts n` returns `min n total` sessions in
non-increasing (lexicographic) date order, and the whole collection splits
as this result followed by a remainder such that the concatenation is a
date-descending permutation of the collection — so the result is exactly
the collection sorted by date descending (stably) and truncated to the
first `n`, its dates dominating every dropped session, each entry the full
session record with its nested sets; on three sessions dated 2026-01-01 /
2026-01-05 / 2026-01-03, asking for 2 yields them ordered 2026-01-05 then
2026-01-03. -/
theorem claim_C8 (st : WorkoutPerformanceAnalyzer) (n : Nat) :
    (get_recent_workouts st n).length = min n st.workouts.length ∧
    List.Pairwise dateGe (get_recent_workouts st n) ∧
    (∃ rest, (get_recent_workouts st n ++ rest).Perm st.workouts ∧
      List.Pairwise dateGe (get_recent_workouts st n ++ rest)) ∧
    get_recent_workouts ex3 2 = [sq05, sq03] := by
  refine ⟨?_, ?_, ?_, by decide⟩
  · simp only [get_recent_workouts, List.length_take,
      (List.perm_insertionSort dateGe st.workouts).length_eq]
  · exact List.Pairwise.sublist (List.take_sublist n _)
      (List.sorted_insertionSort dateGe st.workouts)
  · refine ⟨(List.insertionSort dateGe st.workouts).drop n, ?_, ?_⟩
    · simp only [get_recent_workouts, List.take_append_drop]
      exact List.perm_insertionSort dateGe st.workouts
    · simp only [get_recent_workouts, List.take_append_drop]
      exact List.sorted_insertionSort dateGe st.workouts

theorem claim_C8_witness :
    (get_recent_workouts ex3 2).length = min 2 ex3.workouts.length ∧
    List.Pairwise dateGe (get_recent_workouts ex3 2) ∧
    (∃ rest, (get_recent_workouts ex3 2 ++ rest).Perm ex3.workouts ∧
      List.Pairwise dateGe (get_recent_workouts ex3 2 ++ rest)) ∧
    get_recent_workouts ex3 2 = [sq05, sq03] :=
  claim_C8 ex3 2

/-! ### Python `min` / `max` over string iterables (for C9) -/

theorem strLe_of_strLt_eq_false (a b : String) (h : strLt a b = false) :
    strLe b a = true := by
  simp [strLe, h]

theorem strLe_of_strLt (a b : String) (h : strLt a b = true) :
    strLe a b = true := by
  simp [strLe, strLt, strLtL_asymm _ _ h]

theorem pyMinStr_cons (first y : String) (ys : List String) :
    pyMinStr first (y :: ys) = pyMinStr (if strLt y first then y else first) ys := by
  rw [pyMinStr, List.foldl_cons, pyMinStr]

theorem pyMaxStr_cons (first y : String) (ys : List String) :
    pyMaxStr first (y :: ys) = pyMaxStr (if strLt first y then y else first) ys := by
  rw [pyMaxStr, List.foldl_cons, pyMaxStr]

theorem pyMinStr_mem (rest : List String) :
    ∀ first : String, pyMinStr first rest ∈ first :: rest := by
  induction rest with
  | nil =>
    intro first
    exact List.mem_singleton.mpr rfl
  | cons y ys ih =>
    intro first
    rw [pyMinStr_cons]
    by_cases hy : strLt y first = true
    · rw [if_pos hy]
      rcases List.mem_cons.mp (ih y) with h | h
      · rw [h]
        exact List.mem_cons_of_mem first (List.mem_cons_self y ys)
      · exact List.mem_cons_of_mem first (List.mem_cons_of_mem y h)
    · rw [if_neg hy]
      rcases List.mem_cons.mp (ih first) with h | h
      · rw [h]
        exact List.mem_cons_self first (y :: ys)
      · exact List.mem_cons_of_mem first (List.mem_cons_of_mem y h)

theorem pyMaxStr_mem (rest : List String) :
    ∀ first : String, pyMaxStr first rest ∈ first :: rest := by
  induction rest with
  | nil =>
    intro first
    exact List.mem_singleton.mpr rfl
  | cons y ys ih =>
    intro first
    rw [pyMaxStr_cons]
    by_cases hy : strLt first y = true
    · rw [if_pos hy]
      rcases List.mem_cons.mp (ih y) with h | h
      · rw [h]
        exact List.mem_cons_of_mem first (List.mem_cons_self y ys)
      · exact List.mem_cons_of_mem first (List.mem_cons_of_mem y h)
    · rw [if_neg hy]
      rcases List.mem_cons.mp (ih first) with h | h
      · rw [h]
        exact List.mem_cons_self first (y :: ys)
      · exact List.mem_cons_of_mem first (List.mem_cons_of_mem y h)

theorem pyMinStr_le (rest : List String) :
    ∀ first : String, ∀ x ∈ first :: rest,
      strLe (pyMinStr first rest) x = true := by
  induction rest with
  | nil =>
    intro first x hx
    rw [List.mem_singleton.mp hx]
    exact strLe_refl _
  | cons y ys ih =>
    intro first x hx
    rw [pyMinStr_cons]
    by_cases hy : strLt y first = true
    · rw [if_pos hy]
      rcases List.mem_cons.mp hx with h | h
      · rw [h]
        exact strLe_trans _ y first (ih y y (List.mem_cons_self y ys))
          (strLe_of_strLt y first hy)
      · exact ih y x h
    · rw [if_neg hy]
      rcases List.mem_cons.mp hx with h | h
      · rw [h]
        exact ih first first (List.mem_cons_self first ys)
      · rcases List.mem_cons.mp h with h2 | h2
        · rw [h2]
          exact strLe_trans _ first y
            (ih first first (List.mem_cons_self first ys))
            (strLe_of_strLt_eq_false y first (eq_false_of_ne_true hy))
        · exact ih first x (List.mem_cons_of_mem first h2)

theorem pyMaxStr_ge (rest : List String) :
    ∀ first : String, ∀ x ∈ first :: rest,
      strLe x (pyMaxStr first rest) = true := by
  induction rest with
  | nil =>
    intro first x hx
    rw [List.mem_singleton.mp hx]
    exact strLe_refl _
  | cons y ys ih =>
    intro first x hx
    rw [pyMaxStr_cons]
    by_cases hy : strLt first y = true
    · rw [if_pos hy]
      rcases List.mem_cons.mp hx with h | h
      · rw [h]
        exact strLe_trans first y _ (strLe_of_strLt first y hy)
          (ih y y (List.mem_cons_self y ys))
      · exact ih y x h
    · rw [if_neg hy]
      rcases List.mem_cons.mp hx with h | h
      · rw [h]
        exact ih first first (List.mem_cons_self first ys)
      · rcases List.mem_cons.mp h with h2 | h2
        · rw [h2]
          exact strLe_trans y first _
            (strLe_of_strLt_eq_false first y (eq_false_of_ne_true hy))
            (ih first first (List.mem_cons_self first ys))
        · exact ih first x (List.mem_cons_of_mem first h2)

/-- C9: `generate_report` on an empty collection returns the error dict (the
`error` constructor carries nothing else, so no report fields are computed);
on a non-empty collection it returns a report whose overall total is the sum
of the per-exercise volume totals, whose date range start/end are the
lexicographic minimum/maximum session date, and whose recent list is
`get_recent_workouts 5`. -/
theorem claim_C9 :
    (∀ st : WorkoutPerformanceAnalyzer, st.workouts = [] →
      generate_report st = ReportResult.error "No workout data available") ∧
    (∀ st : WorkoutPerformanceAnalyzer, st.workouts ≠ [] →
      ∃ prs vols ds de,
        generate_report st = ReportResult.ok st.workouts.length
          (prs.map Prod.fst) prs vols ((vols.map Prod.snd).sum) ds de
          (get_recent_workouts st 5) ∧
        prs = get_personal_records st none ∧
        vols = get_volume_by_exercise st ∧
        ds ∈ st.workouts.map (fun w => w.date) ∧
        (∀ x ∈ st.workouts.map (fun w => w.date), strLe ds x = true) ∧
        de ∈ st.workouts.map (fun w => w.date) ∧
        (∀ x ∈ st.workouts.map (fun w => w.date), strLe x de = true)) := by
  constructor
  · intro st h0
    rw [generate_report.eq_def, h0]
  · intro st hne
    cases hw : st.workouts with
    | nil => exact absurd hw hne
    | cons w ws =>
      refine ⟨get_personal_records st none, get_volume_by_exercise st,
        pyMinStr w.date (ws.map (fun u => u.date)),
        pyMaxStr w.date (ws.map (fun u => u.date)), ?_, rfl, rfl, ?_, ?_, ?_, ?_⟩
      · rw [generate_report.eq_def, hw]
      · rw [List.map_cons]
        exact pyMinStr_mem _ w.date
      · rw [List.map_cons]
        exact pyMinStr_le _ w.date
      · rw [List.map_cons]
        exact pyMaxStr_mem _ w.date
      · rw [List.map_cons]
        exact pyMaxStr_ge _ w.date

theorem claim_C9_witness :
    ((⟨[]⟩ : WorkoutPerformanceAnalyzer).workouts = [] ∧
      generate_report ⟨[]⟩ = ReportResult.error "No workout data available") ∧
    (ex3.workouts ≠ [] ∧
      ∃ prs vols ds de,
        generate_report ex3 = ReportResult.ok ex3.workouts.length
          (prs.map Prod.fst) prs vols ((vols.map Prod.snd).sum) ds de
          (get_recent_workouts ex3 5) ∧
        prs = get_personal_records ex3 none ∧
        vols = get_volume_by_exercise ex3 ∧
        ds ∈ ex3.workouts.map (fun w => w.date) ∧
        (∀ x ∈ ex3.workouts.map (fun w => w.date), strLe ds x = true) ∧
        de ∈ ex3.workouts.map (fun w => w.date) ∧
        (∀ x ∈ ex3.workouts.map (fun w => w.date), strLe x de = true)) :=
  ⟨⟨rfl, claim_C9.1 ⟨[]⟩ rfl⟩, ⟨by decide, claim_C9.2 ex3 (by decide)⟩⟩

/-- C10: every query is read-only on the analyzer state: the stateful view of
each of the six query methods returns the collection unchanged — same
sessions, same order, same contents. In particular on a collection stored
out of date order, `calculate_progression` and `get_recent_workouts` (whose
outputs are date-sorted) still leave the owned collection in its original
order: they sort copies. -/
theorem claim_C10 :
    (∀ st e, (get_personal_recordsS st e).2 = st) ∧
    (∀ st e wd, (calculate_progressionS st e wd).2 = st) ∧
    (∀ st, (get_volume_by_exerciseS st).2 = st) ∧
    (∀ st d, (get_session_summaryS st d).2 = st) ∧
    (∀ st n, (get_recent_workoutsS st n).2 = st) ∧
    (∀ st, (generate_reportS st).2 = st) ∧
    ((calculate_progressionS ex3 "Squat" 30).2.workouts = [sq01, sq05, sq03] ∧
      (get_recent_workoutsS ex3 2).2.workouts = [sq01, sq05, sq03] ∧
      (get_recent_workoutsS ex3 2).1 = [sq05, sq03]) := by
  refine ⟨fun st e => rfl, fun st e wd => rfl, fun st => rfl, fun st d => rfl,
    fun st n => rfl, fun st => rfl, by decide, by decide, by decide⟩

end Workout
